import Mathlib

/-!
Verification development for the blond_common bucket-geometry engine
(`beam_dynamics/bucket.py`, `interfaces/beam/beam_parameters.py`).

Shallow embedding conventions:
* Python floats are modelled as `Option ℚ` (`NpQ`): `none` stands for IEEE
  NaN, `some q` for an ordinary number.  Arithmetic propagates NaN, and
  every comparison involving NaN is `false`, as in numpy.
* `np.sqrt` is modelled by a parameter `sq : ℚ → ℚ` for the non-negative
  branch; `np.sqrt x` for `x < 0` yields NaN (numpy emits a RuntimeWarning
  and returns nan -- it does not raise).
* The external numeric primitives that the spec excludes (scipy
  Nelder-Mead minimisation, the cubic-spline interpolant built by
  `interp.prep_interp_cubic`) are passed in as function parameters
  (`MinOracle`, `spline`).  scipy's minimiser can only propagate
  exceptions raised by the objective, which the oracle's type reflects.
* Python exceptions are modelled by explicit error values: `IErr` for the
  exceptions `_interp_time_from_potential` can raise, `SErr` for the ones
  visible at the `Bucket` method boundary.
-/

namespace Blond

/-- Numbers as numpy produces them: `none` is NaN. -/
abbrev NpQ := Option ℚ

/-- NaN-propagating addition. -/
def nadd : NpQ → NpQ → NpQ
  | some a, some b => some (a + b)
  | _, _ => none

/-- NaN-propagating subtraction. -/
def nsub : NpQ → NpQ → NpQ
  | some a, some b => some (a - b)
  | _, _ => none

/-- NaN-propagating multiplication. -/
def nmul : NpQ → NpQ → NpQ
  | some a, some b => some (a * b)
  | _, _ => none

/-- NaN-propagating division (division by zero is not exercised by any
claim; ℚ division by zero yields 0 where Python would produce inf/nan). -/
def ndiv : NpQ → NpQ → NpQ
  | some a, some b => some (a / b)
  | _, _ => none

/-- NaN-propagating negation. -/
def nneg : NpQ → NpQ
  | some a => some (-a)
  | none => none

/-- NaN-propagating absolute value. -/
def nabs : NpQ → NpQ
  | some a => some |a|
  | none => none

/-- Pairwise maximum, NaN-propagating like `np.maximum`/`np.max`. -/
def nmax2 : NpQ → NpQ → NpQ
  | some a, some b => some (max a b)
  | _, _ => none

/-- Pairwise minimum, NaN-propagating. -/
def nmin2 : NpQ → NpQ → NpQ
  | some a, some b => some (min a b)
  | _, _ => none

/-- `np.max` over an array: NaN if any entry is NaN.  (numpy raises on an
empty array; no claim evaluates that case, the model returns NaN.) -/
def npMaxO : List NpQ → NpQ
  | [] => none
  | x :: xs => xs.foldl nmax2 x

/-- `np.min` over an array, NaN-propagating. -/
def npMinO : List NpQ → NpQ
  | [] => none
  | x :: xs => xs.foldl nmin2 x

/-- Strict `>` between possibly-NaN values: any comparison with NaN is
false, as in IEEE / numpy. -/
def npGt : NpQ → NpQ → Bool
  | some a, some b => decide (b < a)
  | _, _ => false

/-- Strict `<` between possibly-NaN values. -/
def npLt (a b : NpQ) : Bool := npGt b a

/-- Non-strict `≤` between possibly-NaN values (false if either is NaN). -/
def nLe : NpQ → NpQ → Bool
  | some a, some b => decide (a ≤ b)
  | _, _ => false

/-- Python `x == 0` on a possibly-NaN value (`nan == 0` is false). -/
def nEqZero (a : NpQ) : Bool := decide (a = some 0)

/-- `np.sqrt` with the non-negative branch given by `sq`; a negative
argument yields NaN (numpy warns and returns nan, it does not raise). -/
def nsqrt (sq : ℚ → ℚ) : NpQ → NpQ
  | some a => if a < 0 then none else some (sq a)
  | none => none

/-- `np.trapz y x`: the trapezoidal rule `Σ (x₁ - x₀) * (y₀ + y₁) / 2`
over consecutive sample pairs, NaN-propagating. -/
def ntrapz (y x : List NpQ) : NpQ :=
  let pts := x.zip y
  (pts.zip pts.tail).foldl
    (fun acc pr =>
      nadd acc (nmul (ndiv (nsub pr.2.1 pr.1.1) (some 2)) (nadd pr.1.2 pr.2.2)))
    (some 0)

/-- `np.max` over a plain rational array (used where the source array is
NaN-free; empty arrays are not exercised by any claim). -/
def npMaxQ (l : List ℚ) : ℚ := l.foldl max (l.headD 0)

/-- `arr[0]` for a rational array. -/
def listFirst (l : List ℚ) : ℚ := l.headD 0

/-- `arr[-1]` for a rational array. -/
def listLast (l : List ℚ) : ℚ := l.getLastD 0

/-- Interior loop of `np.interp`: walk consecutive breakpoints. -/
def npInterpGo (x x0 f0 : ℚ) : List ℚ → List ℚ → ℚ
  | x1 :: xps, f1 :: fps =>
    if x ≤ x1 then f0 + (f1 - f0) * (x - x0) / (x1 - x0)
    else npInterpGo x x1 f1 xps fps
  | _, _ => f0

/-- `np.interp x xp fp` for ordinary numbers: piecewise-linear
interpolation, clamped to the end values outside the breakpoint range. -/
def npInterpQ (x : ℚ) (xp fp : List ℚ) : ℚ :=
  match xp, fp with
  | x0 :: xps, f0 :: fps => if x ≤ x0 then f0 else npInterpGo x x0 f0 xps fps
  | _, _ => 0

/-- `np.interp` with a possibly-NaN query point (`np.interp nan` is nan). -/
def npInterp (x : NpQ) (xp fp : List ℚ) : NpQ :=
  x.map (fun q => npInterpQ q xp fp)

/-- `np.linspace l r n` (NaN endpoints give an all-NaN array). -/
def nlinspace (l r : NpQ) (n : ℕ) : List NpQ :=
  (List.range n).map
    (fun i => nadd l (ndiv (nmul (nsub r l) (some (i : ℚ))) (some ((n : ℚ) - 1))))

/-- Exceptions `_interp_time_from_potential` can raise:
`inputError` models `excpt.InputError` (both domain guards), `indexError`
models the Python `IndexError` from `pts[0]` on an empty index array. -/
inductive IErr
  | inputError
  | indexError
  deriving DecidableEq, Repr

/-- Exceptions visible at the `Bucket` method boundary:
`excpt.InputError`, `excpt.BunchSizeError`, Python `IndexError`, and
Python `AttributeError` (reading a bunch attribute that was never set). -/
inductive SErr
  | inputError
  | bunchSizeError
  | indexError
  | attributeError
  deriving DecidableEq, Repr

/-- Embedding of interp-level exceptions into boundary-level ones. -/
def IErr.toS : IErr → SErr
  | .inputError => .inputError
  | .indexError => .indexError

instance exceptDecEq {ε α : Type} [DecidableEq ε] [DecidableEq α] :
    DecidableEq (Except ε α) := fun x y =>
  match x, y with
  | .error a, .error b =>
    if h : a = b then .isTrue (by rw [h])
    else .isFalse (fun hc => h (by cases hc; rfl))
  | .ok a, .ok b =>
    if h : a = b then .isTrue (by rw [h])
    else .isFalse (fun hc => h (by cases hc; rfl))
  | .error a, .ok b => .isFalse (fun hc => Except.noConfusion hc)
  | .ok a, .error b => .isFalse (fun hc => Except.noConfusion hc)

/-- `Bucket._interp_time_from_potential` (bucket.py lines 350-375), the
`nPts = 0` form returning the two crossing times.  The two guards raise
`InputError`; with no sample at or below the level, `pts` is empty and
`pts[0]` raises `IndexError`.  The local four/five point interpolation
windows are clamped as in the source (`leftPt`/`rightPt` adjustment);
the ℕ truncation in `len - 3` matches Python for `len ≥ 3`, and no claim
exercises shorter arrays. -/
def interp_time_from_potential (time well : List ℚ) (p : NpQ) :
    Except IErr (NpQ × NpQ) :=
  if npGt p (some (npMaxQ well)) then .error .inputError
  else if npLt p (some 0) then .error .inputError
  else
    let pts := (List.range well.length).filter
      (fun i => nLe (some (well.getD i 0)) p)
    match pts with
    | [] => .error .indexError
    | l0 :: _ =>
      let r0 := pts.getLastD 0
      let leftPt := if l0 < 2 then 2 else l0
      let rightPt := if r0 > well.length - 3 then well.length - 3 else r0
      let lxp := ((well.drop (leftPt - 2)).take 4).reverse
      let lfp := ((time.drop (leftPt - 2)).take 4).reverse
      let rxp := (well.drop (rightPt - 2)).take 5
      let rfp := (time.drop (rightPt - 2)).take 5
      Except.ok (npInterp p lxp lfp, npInterp p rxp rfp)

/-- `Bucket._interp_time_from_potential` with `nPts ≠ 0`: the crossing
pair fed through `np.linspace`. -/
def interp_time_from_potential_n (time well : List ℚ) (p : NpQ) (nPts : ℕ) :
    Except IErr (List NpQ) :=
  match interp_time_from_potential time well p with
  | .error e => .error e
  | .ok lr => .ok (nlinspace lr.1 lr.2 nPts)

/-- The scipy Nelder-Mead search (`opt.minimize(..., method='Nelder-Mead')`),
an excluded library primitive: it receives the objective and the initial
guess and returns `result['x'][0]`.  Any exception the objective raises
propagates out of the search, which is all the oracle's type allows: scipy
cannot fabricate a `BunchSizeError` of its own. -/
abbrev MinOracle := (ℚ → Except IErr NpQ) → ℚ → Except IErr ℚ

/-- Modelled from the spec: `rf_functions.potential.potential_to_hamiltonian`
is code of this repository that is not under `src/`.  Spec section 4.3
gives the inverse relation `potential = height² · η / (2 β² · energy)`,
and section 4.2 says the energy-domain upper bound is the square root of
the transformed potential, with sample 0 sitting at the contour level; so
the transform is `hamil wᵢ = (w₀ - wᵢ) · 2 β² · energy / η`. -/
def potential_to_hamiltonian (w : List NpQ) (beta energy eta : ℚ) : List NpQ :=
  let w0 := w.headD none
  w.map (fun x => ndiv (nmul (nsub w0 x) (some (2 * beta ^ 2 * energy))) (some eta))

/-- `Bucket.calc_separatrix` (bucket.py lines 164-176): the Hamiltonian
transform, the unguarded `np.sqrt` (NaN on a negative argument), and the
closed contour: forward time sweep at `+upper` concatenated with the
reversed sweep at `-upper`.  Returns
`(upper_energy_bound, sepTime, sepEnergy)`. -/
def calc_separatrix (sq : ℚ → ℚ) (time well : List ℚ) (beta energy eta : ℚ) :
    List NpQ × List ℚ × List NpQ :=
  let hamil := potential_to_hamiltonian (well.map some) beta energy eta
  let upper := hamil.map (nsqrt sq)
  (upper, time ++ time.reverse, upper ++ (upper.reverse.map nneg))

/-- The geometry attributes a non-sub `Bucket` acquires at construction
(`calc_separatrix` + `basic_parameters`). -/
structure Geometry where
  upper_energy_bound : List NpQ
  sepTime : List ℚ
  sepEnergy : List NpQ
  half_height : NpQ
  area : NpQ
  length : ℚ
  center : ℚ
  deriving DecidableEq, Repr

/-- `Bucket.basic_parameters` (bucket.py lines 179-184):
`half_height = np.max(separatrix[1])`, `area = 2 * np.trapz(upper, time)`,
`length = time[-1] - time[0]`, `center = np.mean(time)`. -/
def basic_parameters (time : List ℚ) (upper sepEnergy : List NpQ) :
    NpQ × NpQ × ℚ × ℚ :=
  (npMaxO sepEnergy,
   nmul (some 2) (ntrapz upper (time.map some)),
   listLast time - listFirst time,
   time.sum / (time.length : ℚ))

/-- `calc_separatrix` followed by `basic_parameters`, packaged. -/
def mkGeometry (sq : ℚ → ℚ) (time well : List ℚ) (beta energy eta : ℚ) :
    Geometry :=
  let sep := calc_separatrix sq time well beta energy eta
  let pars := basic_parameters time sep.1 sep.2.2
  ⟨sep.1, sep.2.1, sep.2.2, pars.1, pars.2.1, pars.2.2.1, pars.2.2.2⟩

/-- A `Bucket` instance.  `geom = none` means the separatrix/geometry
attributes were never set on the object. -/
structure Bucket where
  beta : ℚ
  energy : ℚ
  eta : ℚ
  isSub : Bool
  time_loaded : List ℚ
  well_loaded : List ℚ
  time : List ℚ
  well : List ℚ
  geom : Option Geometry
  deriving DecidableEq, Repr

/-- `Bucket.__init__` with `isSub = True` (bucket.py lines 34-45): the
early return stores the slice and its working copy and skips
`calc_separatrix`, `basic_parameters` and `_identify_substructure`, so no
geometry attribute is set. -/
def mkSubBucket (t w : List ℚ) (beta energy eta : ℚ) : Bucket :=
  ⟨beta, energy, eta, true, t, w, t, w, none⟩

/-- The containment test of `_identify_substructure` (bucket.py lines
74-77): inner well `i` is inside inner well `k` iff
`inner_times[i][0] >= inner_times[k][0]`,
`inner_times[i][-1] <= inner_times[k][-1]`, and the two are not the same
object (distinct list entries, i.e. distinct indices). -/
def wellContains (ts : List (List ℚ)) (k i : ℕ) : Bool :=
  decide (listFirst (ts.getD i []) ≥ listFirst (ts.getD k [])
    ∧ listLast (ts.getD i []) ≤ listLast (ts.getD k [])
    ∧ i ≠ k)

/-- The `contains` table of `_identify_substructure` (lines 73-77). -/
def containsList (ts : List (List ℚ)) : List (List ℕ) :=
  (List.range ts.length).map
    (fun k => (List.range ts.length).filter (fun i => wellContains ts k i))

/-- The `exclude` table (lines 79-82): for each well, the concatenation of
the contains-sets of everything it contains. -/
def excludeList (ts : List (List ℚ)) : List (List ℕ) :=
  (List.range ts.length).map
    (fun k => ((containsList ts).getD k []).flatMap
      (fun c => (containsList ts).getD c []))

/-- The `useCont` table (lines 84-86): each well's contains-set minus its
exclude set (the per-index form of the source's zip loop). -/
def useContList (ts : List (List ℚ)) : List (List ℕ) :=
  (List.range ts.length).map
    (fun k => ((containsList ts).getD k []).filter
      (fun c => decide (c ∉ (excludeList ts).getD k [])))

/-- The `nextLayer` list (lines 92-95): the wells that appear in nobody's
`useCont` entry, attached to the primary bucket as roots. -/
def nextLayerList (ts : List (List ℚ)) : List ℕ :=
  (List.range ts.length).filter
    (fun i => decide (∀ cl ∈ useContList ts, i ∉ cl))

/-- A fully constructed top-level bucket: the primary `Bucket`, the inner
well slices, the containment tables, and the arena of sub-bucket objects
(`bucketDict`), with children recorded as indices into the arena exactly
as the source keeps dictionary references. -/
structure TopBucket where
  prim : Bucket
  inner_times : List (List ℚ)
  inner_wells : List (List ℚ)
  bucketDict : List Bucket
  useCont : List (List ℕ)
  nextLayer : List ℕ
  hasSubs : Bool
  subBucketIdx : List ℕ
  subChildren : List (List ℕ)
  deriving DecidableEq, Repr

/-- `Bucket.__init__` for a top-level bucket (bucket.py lines 47-68) plus
`_identify_substructure` (lines 71-111).  Modelled from the spec where the
input is produced: `pot.sort_potential_wells` (repository code not under
`src/`) supplies `orderedTime, orderedWell` with the primary well first;
the model takes that ordered output directly.  When `nextLayer` is empty
the source returns early with `sub_buckets = []` and never assigns the
per-well children lists (modelled by empty `subBucketIdx`/`subChildren`). -/
def mkBucket (sq : ℚ → ℚ) (orderedT orderedW : List (List ℚ))
    (beta energy eta : ℚ) : TopBucket :=
  let t0 := orderedT.headD []
  let w0 := orderedW.headD []
  let geom := mkGeometry sq t0 w0 beta energy eta
  let innerT := orderedT.tail
  let innerW := orderedW.tail
  let uc := useContList innerT
  let nl := nextLayerList innerT
  { prim := ⟨beta, energy, eta, false, t0, w0, t0, w0, some geom⟩
    inner_times := innerT
    inner_wells := innerW
    bucketDict := (innerT.zip innerW).map (fun p => mkSubBucket p.1 p.2 beta energy eta)
    useCont := uc
    nextLayer := nl
    hasSubs := !nl.isEmpty
    subBucketIdx := if nl.isEmpty then [] else nl
    subChildren := if nl.isEmpty then [] else uc }

/-- The stored bunch-matching attributes `_bunch_length`, `_bunch_height`,
`_bunch_emittance`. -/
structure BunchVals where
  bunch_length : NpQ
  bunch_height : NpQ
  bunch_emittance : NpQ
  deriving DecidableEq, Repr

/-- The attributes of a constructed bucket that the outline / bunch
methods read (`self.time`, `self.well`, the physical scalars, and the
geometry scalars set by `basic_parameters`).  `bunchVals` models the
`_bunch_*` attributes, present only after a bunch target has been set.
`smooth_well()` with no point count only memoises the spline interpolant
(the excluded cubic-spline primitive, passed separately as `spline`) and
leaves `time`/`well` unchanged, so it is the identity here. -/
structure OutlineCtx where
  time : List ℚ
  well : List ℚ
  beta : ℚ
  energy : ℚ
  eta : ℚ
  length : ℚ
  half_height : NpQ
  area : NpQ
  bunchVals : Option BunchVals
  deriving DecidableEq, Repr

/-- The clamp `interpWell[interpWell > interpWell[0]] = interpWell[0]`
applied after interpolating a contour (any comparison with NaN is false,
so NaN entries are kept and a NaN first entry clamps nothing). -/
def clampFirst (l : List NpQ) : List NpQ :=
  let w0 := l.headD none
  l.map (fun w => if npGt w w0 then w0 else w)

/-- The closed-contour assembly shared verbatim by the three outline
methods: energy bound `sqrt(hamil)` over the interpolated well, forward
sweep at `+bound`, reversed sweep at `-bound`. -/
def contourFromWell (sq : ℚ → ℚ) (c : OutlineCtx) (ts ws : List NpQ) :
    List NpQ × List NpQ :=
  let ec := (potential_to_hamiltonian ws c.beta c.energy c.eta).map (nsqrt sq)
  (ts ++ ts.reverse, ec ++ (ec.reverse.map nneg))

/-- The level-to-outline tail duplicated in `outline_from_length` (lines
396-410) and `outline_from_dE` (lines 422-437): interpolate 1000 crossing
times at the level, evaluate the smoothed well there, clamp, and build
the contour.  Errors from the crossing lookup propagate uncaught. -/
def levelToOutline (sq : ℚ → ℚ) (spline : ℚ → ℚ) (c : OutlineCtx) (lvl : NpQ) :
    Except SErr (List NpQ × List NpQ) :=
  match interp_time_from_potential_n c.time c.well lvl 1000 with
  | .error e => .error e.toS
  | .ok ts =>
    let ws := clampFirst (ts.map (Option.map spline))
    .ok (contourFromWell sq c ts ws)

/-- The nested objective `len_func` of `outline_from_length` (bucket.py
lines 385-392): the crossing span's absolute distance to the target;
`except InputError` returns the full bucket span `time[-1] - time[0]`,
while the `IndexError` from an empty `pts` propagates. -/
def len_objective (c : OutlineCtx) (target : NpQ) : ℚ → Except IErr NpQ :=
  fun p =>
    match interp_time_from_potential c.time c.well (some p) with
    | .error .inputError => .ok (some (listLast c.time - listFirst c.time))
    | .error .indexError => .error .indexError
    | .ok lr => .ok (nabs (nsub target (nsub lr.2 lr.1)))

/-- `Bucket.outline_from_length` (bucket.py lines 378-410): guard
`target_length > self.length` raising `BunchSizeError` before the search;
Nelder-Mead over the potential level from initial guess
`np.max(self.well) / 2`; then the uncaught level-to-outline tail at the
located level. -/
def outline_from_length (sq spline : ℚ → ℚ) (oracle : MinOracle)
    (c : OutlineCtx) (target : NpQ) : Except SErr (List NpQ × List NpQ) :=
  if npGt target (some c.length) then .error .bunchSizeError
  else
    match oracle (len_objective c target) (npMaxQ c.well / 2) with
    | .error e => .error e.toS
    | .ok x => levelToOutline sq spline c (some x)

/-- `Bucket.outline_from_dE` (bucket.py lines 413-437): guard
`target_height > self.half_height` raising `BunchSizeError`, then the
closed-form level `target_height² · η / (2 β² · energy)` fed straight to
the level-to-outline tail -- no minimiser is involved, which is why this
model takes no `MinOracle`. -/
def outline_from_dE (sq spline : ℚ → ℚ) (c : OutlineCtx) (target : NpQ) :
    Except SErr (List NpQ × List NpQ) :=
  if npGt target c.half_height then .error .bunchSizeError
  else
    let potential := ndiv (nmul (nmul target target) (some c.eta))
      (some (2 * c.beta ^ 2 * c.energy))
    levelToOutline sq spline c potential

/-- The nested objective `emit_func` of `outline_from_emittance`
(bucket.py lines 447-466): the candidate contour's trapezoidal area
against the target; `except InputError` returns the full bucket area,
while an `IndexError` propagates. -/
def emit_objective (sq spline : ℚ → ℚ) (c : OutlineCtx) (target : NpQ) :
    ℚ → Except IErr NpQ :=
  fun p =>
    match interp_time_from_potential_n c.time c.well (some p) 1000 with
    | .error .inputError => .ok c.area
    | .error .indexError => .error .indexError
    | .ok ts =>
      let ws := clampFirst (ts.map (Option.map spline))
      let ec := (potential_to_hamiltonian ws c.beta c.energy c.eta).map (nsqrt sq)
      .ok (nabs (nsub target (nmul (some 2) (ntrapz ec ts))))

/-- `Bucket.outline_from_emittance` (bucket.py lines 440-490): guard
`target_emittance > self.area` raising `BunchSizeError` before the
search; Nelder-Mead over the potential level; after the search the
crossing lookup is retried under `try/except InputError`, falling back to
the raw `self.time`/`self.well` arrays (no spline, no clamp) when it
raises `InputError`, while an `IndexError` propagates. -/
def outline_from_emittance (sq spline : ℚ → ℚ) (oracle : MinOracle)
    (c : OutlineCtx) (target : NpQ) : Except SErr (List NpQ × List NpQ) :=
  if npGt target c.area then .error .bunchSizeError
  else
    match oracle (emit_objective sq spline c target) (npMaxQ c.well / 2) with
    | .error e => .error e.toS
    | .ok x =>
      match interp_time_from_potential_n c.time c.well (some x) 1000 with
      | .error .inputError =>
        .ok (contourFromWell sq c (c.time.map some) (c.well.map some))
      | .error .indexError => .error .indexError
      | .ok ts =>
        let ws := clampFirst (ts.map (Option.map spline))
        .ok (contourFromWell sq c ts ws)

/-- The degenerate point contour `[[0, 0], [0, 0]]`. -/
def zeroOutline : List NpQ × List NpQ := ([some 0, some 0], [some 0, some 0])

/-- How many of the three bunch-target arguments were supplied
(`assrt.single_not_none` counts the arguments that are not `None`;
modelled from the spec together with the source's own message
`Exactly 1 of (bunch_length, bunch_emittance, bunch_height) should be
given`, since `devtools.assertions` is repository code not under `src/`). -/
def numProvided (bl be bh : Option NpQ) : ℕ :=
  [bl, be, bh].countP Option.isSome

/-- The `outline` local of `Bucket._set_bunch` (bucket.py lines 497-520):
the single-target assertion, then per target the `== 0` special case
returning the degenerate point contour without touching the search,
otherwise the corresponding outline method.  The final arm is unreachable
because the assertion already rejected the no-target call. -/
def set_bunch_outline (sq spline : ℚ → ℚ) (oracle : MinOracle)
    (c : OutlineCtx) (bl be bh : Option NpQ) :
    Except SErr (List NpQ × List NpQ) :=
  if numProvided bl be bh ≠ 1 then .error .inputError
  else
    match bl, be, bh with
    | some t, _, _ =>
      if nEqZero t then .ok zeroOutline else outline_from_length sq spline oracle c t
    | none, some t, _ =>
      if nEqZero t then .ok zeroOutline else outline_from_emittance sq spline oracle c t
    | none, none, some t =>
      if nEqZero t then .ok zeroOutline else outline_from_dE sq spline c t
    | none, none, none => .error .inputError

/-- The three stored values recomputed from one outline
(bucket.py lines 522-524). -/
def bunchValsOfOutline (o : List NpQ × List NpQ) : BunchVals :=
  ⟨nsub (npMaxO o.1) (npMinO o.1), npMaxO o.2, ntrapz o.2 o.1⟩

/-- `Bucket._set_bunch` (bucket.py lines 497-524): the single outline,
then all three `_bunch_*` attributes recomputed from it. -/
def set_bunch (sq spline : ℚ → ℚ) (oracle : MinOracle) (c : OutlineCtx)
    (bl be bh : Option NpQ) : Except SErr BunchVals :=
  (set_bunch_outline sq spline oracle c bl be bh).map bunchValsOfOutline

/-- The `bunch_length` property setter (bucket.py lines 540-542). -/
def bunch_length_set (sq spline : ℚ → ℚ) (oracle : MinOracle) (c : OutlineCtx)
    (v : NpQ) : Except SErr BunchVals :=
  set_bunch sq spline oracle c (some v) none none

/-- The `bunch_height` property setter (bucket.py lines 544-546). -/
def bunch_height_set (sq spline : ℚ → ℚ) (oracle : MinOracle) (c : OutlineCtx)
    (v : NpQ) : Except SErr BunchVals :=
  set_bunch sq spline oracle c none none (some v)

/-- The `bunch_emittance` property setter (bucket.py lines 548-550). -/
def bunch_emittance_set (sq spline : ℚ → ℚ) (oracle : MinOracle)
    (c : OutlineCtx) (v : NpQ) : Except SErr BunchVals :=
  set_bunch sq spline oracle c none (some v) none

/-- The per-bucket update step of `Beam_Parameters.bucket_parameters`
(beam_parameters.py lines 377-389): set the requested emittance; on a
`BunchSizeError`, either re-raise (aborting the batch) or, under the
`over_fill` policy, warn and substitute the bucket's full area as the
target.  The boolean records whether the over-fill warning was issued. -/
def update_bucket_emittance (sq spline : ℚ → ℚ) (oracle : MinOracle)
    (over_fill : Bool) (c : OutlineCtx) (req : NpQ) :
    Except SErr (BunchVals × Bool) :=
  match set_bunch sq spline oracle c none (some req) none with
  | .ok v => .ok (v, false)
  | .error SErr.bunchSizeError =>
    if over_fill then
      (set_bunch sq spline oracle c none (some c.area) none).map (fun v => (v, true))
    else .error SErr.bunchSizeError
  | .error e => .error e

/-- One aggregated record per bucket: the bunch values and the bucket's
`half_height`, `area` and `length` (beam_parameters.py lines 391-396). -/
abbrev BRecord := BunchVals × NpQ × NpQ × ℚ

/-- `Beam_Parameters.bucket_parameters` (beam_parameters.py lines
336-396), reduced to its aggregation core: the batch is the flattened
particle × sample sequence of (bucket, requested emittance) pairs; each
bucket is updated (when `update_bunch_parameters` is set) and its
parameters recorded; any uncaught error aborts the whole batch.  Reading
the bunch attributes of a bucket that never had them set raises
`AttributeError`. -/
def bucket_parameters (sq spline : ℚ → ℚ) (oracle : MinOracle)
    (update over_fill : Bool) :
    List (OutlineCtx × NpQ) → Except SErr (List BRecord)
  | [] => .ok []
  | (c, req) :: rest =>
    let step : Except SErr (BunchVals × Bool) :=
      if update then update_bucket_emittance sq spline oracle over_fill c req
      else
        match c.bunchVals with
        | some v => .ok (v, false)
        | none => .error .attributeError
    match step with
    | .error e => .error e
    | .ok vw =>
      match bucket_parameters sq spline oracle update over_fill rest with
      | .error e => .error e
      | .ok rs => .ok ((vw.1, c.half_height, c.area, c.length) :: rs)

/-! ### Helper lemmas -/

theorem getD_range_map {α : Type} (f : ℕ → α) (n k : ℕ) (d : α) :
    ((List.range n).map f).getD k d = if k < n then f k else d := by
  rw [List.getD_eq_getElem?_getD, List.getElem?_map]
  rcases Nat.lt_or_ge k n with h | h
  · simp [List.getElem?_range h, h]
  · simp [List.getElem?_eq_none, Nat.not_lt.mpr h, h, Nat.le_of_lt]

theorem wellContains_true_iff (ts : List (List ℚ)) (k i : ℕ) :
    wellContains ts k i = true
      ↔ (listFirst (ts.getD i []) ≥ listFirst (ts.getD k [])
          ∧ listLast (ts.getD i []) ≤ listLast (ts.getD k [])
          ∧ i ≠ k) := by
  simp [wellContains]

theorem mem_containsList (ts : List (List ℚ)) (k c : ℕ) :
    c ∈ (containsList ts).getD k []
      ↔ (k < ts.length ∧ c < ts.length ∧ wellContains ts k c = true) := by
  rw [containsList, getD_range_map]
  rcases Nat.lt_or_ge k ts.length with h | h
  · rw [if_pos h]
    simp [List.mem_filter, List.mem_range, h, and_comm]
  · simp [if_neg (Nat.not_lt.mpr h), Nat.not_lt.mpr h]

theorem mem_excludeList (ts : List (List ℚ)) (k x : ℕ) :
    x ∈ (excludeList ts).getD k []
      ↔ (k < ts.length
          ∧ ∃ c ∈ (containsList ts).getD k [], x ∈ (containsList ts).getD c []) := by
  rw [excludeList, getD_range_map]
  rcases Nat.lt_or_ge k ts.length with h | h
  · rw [if_pos h]
    simp [List.mem_flatMap, h]
  · simp [if_neg (Nat.not_lt.mpr h), Nat.not_lt.mpr h]

theorem mem_useContList (ts : List (List ℚ)) (k c : ℕ) :
    c ∈ (useContList ts).getD k []
      ↔ (k < ts.length ∧ c ∈ (containsList ts).getD k []
          ∧ c ∉ (excludeList ts).getD k []) := by
  rw [useContList, getD_range_map]
  rcases Nat.lt_or_ge k ts.length with h | h
  · rw [if_pos h]
    simp [List.mem_filter, h]
  · simp [if_neg (Nat.not_lt.mpr h), Nat.not_lt.mpr h]

theorem mem_nextLayerList (ts : List (List ℚ)) (i : ℕ) :
    i ∈ nextLayerList ts
      ↔ (i < ts.length ∧ ∀ cl ∈ useContList ts, i ∉ cl) := by
  rw [nextLayerList]
  simp [List.mem_filter, List.mem_range]

theorem foldl_nmax2_none (xs : List NpQ) (acc : NpQ)
    (h : acc = none ∨ none ∈ xs) : xs.foldl nmax2 acc = none := by
  induction xs generalizing acc with
  | nil =>
    rcases h with h | h
    · simpa using h
    · simp at h
  | cons y ys ih =>
    show ys.foldl nmax2 (nmax2 acc y) = none
    rcases h with h | h
    · exact ih (nmax2 acc y) (Or.inl (by subst h; cases y <;> rfl))
    · rcases List.mem_cons.mp h with h | h
      · exact ih (nmax2 acc y) (Or.inl (by rw [h.symm]; cases acc <;> rfl))
      · exact ih (nmax2 acc y) (Or.inr h)

theorem npMaxO_none {l : List NpQ} (h : none ∈ l) : npMaxO l = none := by
  cases l with
  | nil => simp at h
  | cons x xs =>
    show xs.foldl nmax2 x = none
    rcases List.mem_cons.mp h with h | h
    · exact foldl_nmax2_none xs x (Or.inl h.symm)
    · exact foldl_nmax2_none xs x (Or.inr h)

theorem IErr_toS_ne_bunch (e : IErr) : e.toS ≠ SErr.bunchSizeError := by
  cases e <;> simp [IErr.toS]

theorem getD_mem_useContList (ts : List (List ℚ)) (k : ℕ) (hk : k < ts.length) :
    (useContList ts).getD k [] ∈ useContList ts := by
  rw [useContList, getD_range_map, if_pos hk]
  exact List.mem_map.mpr ⟨k, List.mem_range.mpr hk, rfl⟩

theorem forall_cl_iff (ts : List (List ℚ)) (i : ℕ) :
    (∀ cl ∈ useContList ts, i ∉ cl) ↔ (∀ k, i ∉ (useContList ts).getD k []) := by
  constructor
  · intro h k hmem
    rcases Nat.lt_or_ge k ts.length with hk | hk
    · exact h _ (getD_mem_useContList ts k hk) hmem
    · rw [useContList, getD_range_map, if_neg (Nat.not_lt.mpr hk)] at hmem
      simp at hmem
  · intro h cl hcl hmem
    rw [useContList] at hcl
    obtain ⟨k, hkr, rfl⟩ := List.mem_map.mp hcl
    have hknot := h k
    rw [useContList, getD_range_map, if_pos (List.mem_range.mp hkr)] at hknot
    exact hknot hmem

/-! ### Claim theorems -/

/-- C10: for a level `p` with `0 ≤ p ≤ max(well)` but `p` strictly below
every well sample, `_interp_time_from_potential` passes both domain
guards, finds no sample with `well ≤ p`, and the first-element index of
the empty `pts` array raises `IndexError`: the lookup neither returns a
crossing pair nor raises a domain error, so it is not total over the
advertised range `[0, max(well)]`. -/
theorem C10_interp_gap (time well : List ℚ) (p : ℚ)
    (_hne : well ≠ []) (h0 : 0 ≤ p) (hmax : p ≤ npMaxQ well)
    (hmin : ∀ w ∈ well, p < w) :
    interp_time_from_potential time well (some p) = .error .indexError := by
  have h1 : npGt (some p) (some (npMaxQ well)) = false := by
    simp [npGt, not_lt]
    exact hmax
  have h2 : npLt (some p) (some 0) = false := by
    simp [npLt, npGt, not_lt]
    exact h0
  have h3 : (List.range well.length).filter
      (fun i => nLe (some (well[i]?.getD 0)) (some p)) = [] := by
    apply List.filter_eq_nil_iff.mpr
    intro i hi
    have hlt : i < well.length := List.mem_range.mp hi
    have hw : well[i]?.getD 0 ∈ well := by
      rw [List.getElem?_eq_getElem hlt]
      exact List.getElem_mem hlt
    simp [nLe, not_le]
    exact hmin _ hw
  simp [interp_time_from_potential, h1, h2, h3]

/-- Closed witness for C10 at `time = [0,1,2]`, `well = [5,3,5]`,
`p = 1`: the level is in `[0, max(well)]` yet below the well minimum. -/
theorem C10_witness :
    interp_time_from_potential [0, 1, 2] [5, 3, 5] (some 1)
      = .error .indexError :=
  C10_interp_gap [0, 1, 2] [5, 3, 5] 1 (by decide) (by norm_num)
    (by norm_num [npMaxQ]) (by decide)

/-- C1, corrected: when the Hamiltonian transform of the primary well has
a negative entry, the unguarded `np.sqrt` turns it into NaN instead of
raising: bucket construction completes (the geometry is present), the
upper energy bound contains a NaN sample, and the NaN propagates into
`half_height = np.max(separatrix[1])`.  No `NonPhysicalWell` error exists
anywhere in the construction path. -/
theorem C1_nan_propagation (sq : ℚ → ℚ) (orderedT orderedW : List (List ℚ))
    (beta energy eta : ℚ)
    (h : ∃ x ∈ potential_to_hamiltonian ((orderedW.headD []).map some)
            beta energy eta, npLt x (some 0) = true) :
    ∃ g, (mkBucket sq orderedT orderedW beta energy eta).prim.geom = some g
      ∧ none ∈ g.upper_energy_bound
      ∧ g.half_height = none := by
  refine ⟨mkGeometry sq (orderedT.headD []) (orderedW.headD []) beta energy eta,
    rfl, ?_, ?_⟩
  · obtain ⟨x, hx, hlt⟩ := h
    have hupper : (mkGeometry sq (orderedT.headD []) (orderedW.headD [])
        beta energy eta).upper_energy_bound
        = (potential_to_hamiltonian ((orderedW.headD []).map some)
            beta energy eta).map (nsqrt sq) := rfl
    rw [hupper]
    rcases x with _ | v
    · simp [npLt, npGt] at hlt
    · have hv : v < 0 := by simpa [npLt, npGt] using hlt
      exact List.mem_map.mpr ⟨some v, hx, by simp [nsqrt, hv]⟩
  · obtain ⟨x, hx, hlt⟩ := h
    have hhh : (mkGeometry sq (orderedT.headD []) (orderedW.headD [])
        beta energy eta).half_height
        = npMaxO ((mkGeometry sq (orderedT.headD []) (orderedW.headD [])
            beta energy eta).sepEnergy) := rfl
    rw [hhh]
    apply npMaxO_none
    have hse : (mkGeometry sq (orderedT.headD []) (orderedW.headD [])
        beta energy eta).sepEnergy
        = ((potential_to_hamiltonian ((orderedW.headD []).map some)
              beta energy eta).map (nsqrt sq))
          ++ (((potential_to_hamiltonian ((orderedW.headD []).map some)
              beta energy eta).map (nsqrt sq)).reverse.map nneg) := rfl
    rw [hse]
    apply List.mem_append_left
    rcases x with _ | v
    · simp [npLt, npGt] at hlt
    · have hv : v < 0 := by simpa [npLt, npGt] using hlt
      exact List.mem_map.mpr ⟨some v, hx, by simp [nsqrt, hv]⟩

/-- Closed witness for C1 at the well `[0, 1]` over `[0, 1]` with
`β = energy = η = 1`: the transform gives `[0, -2]`, yet construction
completes and `half_height` is NaN. -/
theorem C1_witness :
    ∃ g, (mkBucket (fun _ => (0 : ℚ)) [[0, 1]] [[0, 1]] 1 1 1).prim.geom = some g
      ∧ none ∈ g.upper_energy_bound
      ∧ g.half_height = none :=
  C1_nan_propagation (fun _ => (0 : ℚ)) [[0, 1]] [[0, 1]] 1 1 1
    ⟨ndiv (nmul (nsub (some 0) (some 1)) (some (2 * 1 ^ 2 * 1))) (some 1),
      List.mem_map.mpr ⟨some 1, by simp, rfl⟩,
      by simp [ndiv, nmul, nsub, npLt, npGt]⟩

/-- Counterexample to C1 as stated: at the concrete well `[0, 1]` the
Hamiltonian transform has the negative entry `-2`, yet `Bucket`
construction does not abort -- the geometry attributes are all set
(`geom.isSome`) and the negative argument was propagated as NaN into
`half_height`, contradicting both "fails with a NonPhysicalWell domain
error" and "not propagated as not-a-number". -/
theorem C1_counterexample :
    (∃ x ∈ potential_to_hamiltonian [some 0, some 1] 1 1 1,
        npLt x (some 0) = true)
    ∧ (mkBucket (fun _ => (0 : ℚ)) [[0, 1]] [[0, 1]] 1 1 1).prim.geom.isSome = true
    ∧ ((mkBucket (fun _ => (0 : ℚ)) [[0, 1]] [[0, 1]] 1 1 1).prim.geom.map
        Geometry.half_height) = some none := by
  refine ⟨⟨ndiv (nmul (nsub (some 0) (some 1)) (some (2 * 1 ^ 2 * 1))) (some 1),
    List.mem_map.mpr ⟨some 1, by simp, rfl⟩,
    by simp [ndiv, nmul, nsub, npLt, npGt]⟩, rfl, ?_⟩
  norm_num [mkBucket, mkGeometry, calc_separatrix, basic_parameters,
    potential_to_hamiltonian, nsqrt, nsub, nmul, ndiv, nneg, npMaxO, nmax2]

/-- C2, corrected: during `_identify_substructure` a `Bucket` is indeed
constructed for every inner well, flagged `isSub = True`, with its own
time/well slice stored as both loaded and working arrays -- but the
`isSub` early return (bucket.py lines 40-45) skips `calc_separatrix` and
`basic_parameters`, so no sub-bucket computes its separatrix or geometry
at construction time (`geom = none`). -/
theorem C2_sub_buckets (sq : ℚ → ℚ) (orderedT orderedW : List (List ℚ))
    (beta energy eta : ℚ) (t w : List ℚ) :
    (mkBucket sq orderedT orderedW beta energy eta).bucketDict
        = (orderedT.tail.zip orderedW.tail).map
            (fun p => mkSubBucket p.1 p.2 beta energy eta)
    ∧ mkSubBucket t w beta energy eta
        = ⟨beta, energy, eta, true, t, w, t, w, none⟩ :=
  ⟨rfl, rfl⟩

/-- Counterexample to C2 as stated: for the primary well `[0, 10]` with
one inner well `[2, 3]`, the constructed sub-bucket is flagged as a
sub-bucket but carries no separatrix and no geometry (`geom = none`),
contradicting "independently computes its own separatrix and basic
geometry ... at construction time". -/
theorem C2_counterexample :
    ((mkBucket (fun _ => (0 : ℚ)) [[0, 10], [2, 3]] [[5, 5], [1, 1]] 1 1 1).bucketDict.map
        Bucket.isSub = [true])
    ∧ ((mkBucket (fun _ => (0 : ℚ)) [[0, 10], [2, 3]] [[5, 5], [1, 1]] 1 1 1).bucketDict.map
        Bucket.geom = [none]) :=
  ⟨rfl, rfl⟩

/-- C3, corrected.  General laws of `_identify_substructure`, faithful to
the source: (1) a node's immediate children are its contains-set minus its
exclude set; (2) a well is attached to the primary bucket as a root iff no
well's immediate-children list contains it; (3) whenever `a` contains `b`
and `b` contains `c` under the source's containment test, `c` is never an
immediate child of `a`.  The per-triple child claim needs strictness: (4)
for a configuration of exactly three wells whose intervals are nested and
pairwise distinct (A ⊋ B ⊋ C as intervals), C is an immediate child of B
and of nobody else, and A is the unique root.  With non-strict nesting the
claim fails (see the counterexample, where A and B share an interval). -/
theorem C3_containment :
    (∀ ts : List (List ℚ), ∀ k c : ℕ, k < ts.length →
       (c ∈ (useContList ts).getD k []
         ↔ (c ∈ (containsList ts).getD k [] ∧ c ∉ (excludeList ts).getD k [])))
    ∧ (∀ ts : List (List ℚ), ∀ i : ℕ,
        (i ∈ nextLayerList ts ↔ (i < ts.length ∧ ∀ cl ∈ useContList ts, i ∉ cl)))
    ∧ (∀ ts : List (List ℚ), ∀ a b c : ℕ, b < ts.length → c < ts.length →
        wellContains ts a b = true → wellContains ts b c = true →
        c ∉ (useContList ts).getD a [])
    ∧ (∀ ta tb tc : List ℚ,
        listFirst ta ≤ listFirst tb → listFirst tb ≤ listFirst tc →
        listLast tc ≤ listLast tb → listLast tb ≤ listLast ta →
        (listFirst ta, listLast ta) ≠ (listFirst tb, listLast tb) →
        (listFirst tb, listLast tb) ≠ (listFirst tc, listLast tc) →
        (listFirst ta, listLast ta) ≠ (listFirst tc, listLast tc) →
        (2 ∈ (useContList [ta, tb, tc]).getD 1 []
          ∧ (∀ k : ℕ, k ≠ 1 → 2 ∉ (useContList [ta, tb, tc]).getD k [])
          ∧ 0 ∈ nextLayerList [ta, tb, tc]
          ∧ 1 ∉ nextLayerList [ta, tb, tc]
          ∧ 2 ∉ nextLayerList [ta, tb, tc])) := by
  have part1 : ∀ ts : List (List ℚ), ∀ k c : ℕ, k < ts.length →
      (c ∈ (useContList ts).getD k []
        ↔ (c ∈ (containsList ts).getD k [] ∧ c ∉ (excludeList ts).getD k [])) := by
    intro ts k c hk
    rw [mem_useContList]
    tauto
  have part3 : ∀ ts : List (List ℚ), ∀ a b c : ℕ, b < ts.length → c < ts.length →
      wellContains ts a b = true → wellContains ts b c = true →
      c ∉ (useContList ts).getD a [] := by
    intro ts a b c hb hc hab hbc hmem
    rw [mem_useContList] at hmem
    obtain ⟨ha, _, hexc⟩ := hmem
    exact hexc ((mem_excludeList ts a c).mpr
      ⟨ha, b, (mem_containsList ts a b).mpr ⟨ha, hb, hab⟩,
        (mem_containsList ts b c).mpr ⟨hb, hc, hbc⟩⟩)
  refine ⟨part1, fun ts i => mem_nextLayerList ts i, part3, ?_⟩
  intro ta tb tc h1 h2 h3 h4 hab hbc hac
  have w01 : wellContains [ta, tb, tc] 0 1 = true :=
    (wellContains_true_iff [ta, tb, tc] 0 1).mpr ⟨h1, h4, by omega⟩
  have w02 : wellContains [ta, tb, tc] 0 2 = true :=
    (wellContains_true_iff [ta, tb, tc] 0 2).mpr ⟨h1.trans h2, h3.trans h4, by omega⟩
  have w12 : wellContains [ta, tb, tc] 1 2 = true :=
    (wellContains_true_iff [ta, tb, tc] 1 2).mpr ⟨h2, h3, by omega⟩
  have w10 : ¬ wellContains [ta, tb, tc] 1 0 = true := by
    rw [wellContains_true_iff]
    rintro ⟨hge, hle, -⟩
    exact hab (Prod.ext (le_antisymm h1 hge) (le_antisymm hle h4))
  have w20 : ¬ wellContains [ta, tb, tc] 2 0 = true := by
    rw [wellContains_true_iff]
    rintro ⟨hge, hle, -⟩
    exact hac (Prod.ext (le_antisymm (h1.trans h2) hge) (le_antisymm hle (h3.trans h4)))
  have w21 : ¬ wellContains [ta, tb, tc] 2 1 = true := by
    rw [wellContains_true_iff]
    rintro ⟨hge, hle, -⟩
    exact hbc (Prod.ext (le_antisymm h2 hge) (le_antisymm hle h3))
  have wkk : ∀ k, ¬ wellContains [ta, tb, tc] k k = true := by
    intro k
    rw [wellContains_true_iff]
    rintro ⟨-, -, h⟩
    exact h rfl
  have hcm : ∀ k c : ℕ, c ∈ (containsList [ta, tb, tc]).getD k []
      ↔ (k < 3 ∧ c < 3 ∧ wellContains [ta, tb, tc] k c = true) :=
    fun k c => mem_containsList [ta, tb, tc] k c
  have hnc : ∀ k c : ℕ, c ∈ (containsList [ta, tb, tc]).getD k [] →
      wellContains [ta, tb, tc] k c = true := fun k c h => ((hcm k c).mp h).2.2
  have g1 : (2 : ℕ) ∈ (useContList [ta, tb, tc]).getD 1 [] := by
    rw [mem_useContList]
    refine ⟨by simp, (hcm 1 2).mpr ⟨by simp, by simp, w12⟩, ?_⟩
    intro hex
    rw [mem_excludeList] at hex
    obtain ⟨-, d, hd1, hd2⟩ := hex
    have hd3 : d < 3 := ((hcm 1 d).mp hd1).2.1
    have : d = 0 ∨ d = 1 ∨ d = 2 := by omega
    rcases this with rfl | rfl | rfl
    · exact w10 (hnc 1 0 hd1)
    · exact wkk 1 (hnc 1 1 hd1)
    · exact wkk 2 (hnc 2 2 hd2)
  have g2 : ∀ k : ℕ, k ≠ 1 → (2 : ℕ) ∉ (useContList [ta, tb, tc]).getD k [] := by
    intro k hk hmem
    rw [mem_useContList] at hmem
    obtain ⟨hk3, hcont, hexc⟩ := hmem
    have hk3' : k < 3 := hk3
    have : k = 0 ∨ k = 2 := by omega
    rcases this with rfl | rfl
    · exact hexc ((mem_excludeList [ta, tb, tc] 0 2).mpr
        ⟨by simp, 1, (hcm 0 1).mpr ⟨by simp, by simp, w01⟩,
          (hcm 1 2).mpr ⟨by simp, by simp, w12⟩⟩)
    · exact wkk 2 (hnc 2 2 hcont)
  have huse0 : (1 : ℕ) ∈ (useContList [ta, tb, tc]).getD 0 [] := by
    rw [mem_useContList]
    refine ⟨by simp, (hcm 0 1).mpr ⟨by simp, by simp, w01⟩, ?_⟩
    intro hex
    rw [mem_excludeList] at hex
    obtain ⟨-, d, hd1, hd2⟩ := hex
    have hd3 : d < 3 := ((hcm 0 d).mp hd1).2.1
    have : d = 0 ∨ d = 1 ∨ d = 2 := by omega
    rcases this with rfl | rfl | rfl
    · exact wkk 0 (hnc 0 0 hd1)
    · exact wkk 1 (hnc 1 1 hd2)
    · exact w21 (hnc 2 1 hd2)
  refine ⟨g1, g2, ?_, ?_, ?_⟩
  · rw [mem_nextLayerList]
    refine ⟨by simp, (forall_cl_iff [ta, tb, tc] 0).mpr ?_⟩
    intro k hmem
    rw [mem_useContList] at hmem
    obtain ⟨hk3, hcont, -⟩ := hmem
    have hk3' : k < 3 := hk3
    have : k = 0 ∨ k = 1 ∨ k = 2 := by omega
    rcases this with rfl | rfl | rfl
    · exact wkk 0 (hnc 0 0 hcont)
    · exact w10 (hnc 1 0 hcont)
    · exact w20 (hnc 2 0 hcont)
  · intro hmem
    rw [mem_nextLayerList] at hmem
    exact ((forall_cl_iff [ta, tb, tc] 1).mp hmem.2) 0 huse0
  · intro hmem
    rw [mem_nextLayerList] at hmem
    exact ((forall_cl_iff [ta, tb, tc] 2).mp hmem.2) 1 g1

/-- Closed witness for C3 at the strictly nested wells
`[0,10] ⊋ [2,5] ⊋ [3,4]`: part (3) of the theorem gives that the
innermost well is not an immediate child of the outermost one. -/
theorem C3_witness :
    2 ∉ (useContList [[0, 10], [2, 5], [3, 4]]).getD 0 [] :=
  C3_containment.2.2.1 [[0, 10], [2, 5], [3, 4]] 0 1 2
    (by decide) (by decide) (by decide) (by decide)

/-- Counterexample to C3 as stated: three distinct inner wells whose time
intervals satisfy A ⊇ B ⊇ C (non-strictly: A and B share the interval
`[0,10]`, C is `[2,3]`).  The containment tables compute to
`useCont = [[1], [0], []]`: C (index 2) is not recorded as an immediate
child of B (index 1) -- it is a child of nobody and lands in `nextLayer`
instead -- contradicting "records C as an immediate child of B only". -/
theorem C3_counterexample :
    (wellContains [[0, 10], [0, 10], [2, 3]] 0 1 = true)
    ∧ (wellContains [[0, 10], [0, 10], [2, 3]] 1 2 = true)
    ∧ (useContList [[0, 10], [0, 10], [2, 3]] = [[1], [0], []])
    ∧ 2 ∉ (useContList [[0, 10], [0, 10], [2, 3]]).getD 1 []
    ∧ 2 ∈ nextLayerList [[0, 10], [0, 10], [2, 3]] := by
  decide

theorem levelToOutline_ne_bunch (sq spline : ℚ → ℚ) (c : OutlineCtx)
    (lvl : NpQ) : levelToOutline sq spline c lvl ≠ .error .bunchSizeError := by
  unfold levelToOutline
  cases h : interp_time_from_potential_n c.time c.well lvl 1000 with
  | error e =>
    intro hc
    exact IErr_toS_ne_bunch e (by injection hc)
  | ok ts => simp

/-- C4, confirmed: `outline_from_length` raises `BunchSizeError` iff the
target strictly exceeds the bucket length, and `outline_from_emittance`
raises it iff the target strictly exceeds the bucket area (`npGt`
is exactly the source's `>`); when the guard fires the result is the same
for every minimiser oracle, i.e. the error is raised before any search,
and when the target does not exceed the capacity (including exact
equality) no `BunchSizeError` can arise from any later step. -/
theorem C4_outline_guards (sq spline : ℚ → ℚ) (c : OutlineCtx) (q : ℚ)
    (te : NpQ) :
    (c.length < q → ∀ oracle : MinOracle,
       outline_from_length sq spline oracle c (some q) = .error .bunchSizeError)
    ∧ (q ≤ c.length → ∀ oracle : MinOracle,
       outline_from_length sq spline oracle c (some q) ≠ .error .bunchSizeError)
    ∧ (npGt te c.area = true → ∀ oracle : MinOracle,
       outline_from_emittance sq spline oracle c te = .error .bunchSizeError)
    ∧ (npGt te c.area = false → ∀ oracle : MinOracle,
       outline_from_emittance sq spline oracle c te ≠ .error .bunchSizeError) := by
  refine ⟨?_, ?_, ?_, ?_⟩
  · intro h oracle
    have hg : npGt (some q) (some c.length) = true := by
      simp [npGt]
      exact h
    simp [outline_from_length, hg]
  · intro h oracle
    have hg : npGt (some q) (some c.length) = false := by
      simp [npGt, not_lt]
      exact h
    unfold outline_from_length
    rw [hg]
    simp only [Bool.false_eq_true, if_false]
    cases hor : oracle (len_objective c (some q)) (npMaxQ c.well / 2) with
    | error e =>
      intro hc
      exact IErr_toS_ne_bunch e (by injection hc)
    | ok x => exact levelToOutline_ne_bunch sq spline c (some x)
  · intro h oracle
    simp [outline_from_emittance, h]
  · intro h oracle
    unfold outline_from_emittance
    rw [h]
    simp only [Bool.false_eq_true, if_false]
    cases hor : oracle (emit_objective sq spline c te) (npMaxQ c.well / 2) with
    | error e =>
      intro hc
      exact IErr_toS_ne_bunch e (by injection hc)
    | ok x =>
      cases hi : interp_time_from_potential_n c.time c.well (some x) 1000 with
      | error e => cases e <;> simp [hi]
      | ok ts => simp [hi]

/-- Closed witness for C4: on a bucket of length 1, a requested length of
5 is rejected with `BunchSizeError` for an arbitrary oracle. -/
theorem C4_witness :
    outline_from_length (fun _ => (0 : ℚ)) id (fun _ _ => .ok 0)
      ⟨[0, 1], [0, 1], 1, 1, 1, 1, some 1, some 1, none⟩ (some 5)
      = .error .bunchSizeError :=
  (C4_outline_guards (fun _ => (0 : ℚ)) id
      ⟨[0, 1], [0, 1], 1, 1, 1, 1, some 1, some 1, none⟩ 5 (some 5)).1
    (by norm_num) (fun _ _ => .ok 0)

/-- C5, confirmed: `outline_from_dE` raises `BunchSizeError` whenever the
target height exceeds `half_height` (the guard is the source's `>`, false
on a NaN half-height), and otherwise feeds the closed-form level
`target² · η / (2 β² · energy)` straight to the level-to-outline tail.
The function takes no minimiser oracle: no numerical search occurs. -/
theorem C5_outline_from_dE_closed_form (sq spline : ℚ → ℚ) (c : OutlineCtx)
    (q : ℚ) :
    (npGt (some q) c.half_height = true →
       outline_from_dE sq spline c (some q) = .error .bunchSizeError)
    ∧ (npGt (some q) c.half_height = false →
       outline_from_dE sq spline c (some q)
         = levelToOutline sq spline c
             (some (q * q * c.eta / (2 * c.beta ^ 2 * c.energy)))) := by
  constructor
  · intro h
    simp [outline_from_dE, h]
  · intro h
    unfold outline_from_dE
    rw [h]
    simp only [Bool.false_eq_true, if_false, nmul, ndiv]

/-- Closed witness for C5: on a bucket of half-height 2 a target height of
5 raises, and a target height of 1 produces exactly the closed-form-level
contour. -/
theorem C5_witness :
    outline_from_dE (fun _ => (0 : ℚ)) id
      ⟨[0, 1], [0, 1], 1, 1, 1, 1, some 2, some 1, none⟩ (some 5)
      = .error .bunchSizeError
    ∧ outline_from_dE (fun _ => (0 : ℚ)) id
      ⟨[0, 1], [0, 1], 1, 1, 1, 1, some 2, some 1, none⟩ (some 1)
      = levelToOutline (fun _ => (0 : ℚ)) id
          ⟨[0, 1], [0, 1], 1, 1, 1, 1, some 2, some 1, none⟩
          (some (1 * 1 * 1 / (2 * 1 ^ 2 * 1))) :=
  ⟨(C5_outline_from_dE_closed_form (fun _ => (0 : ℚ)) id
      ⟨[0, 1], [0, 1], 1, 1, 1, 1, some 2, some 1, none⟩ 5).1 (by decide),
   (C5_outline_from_dE_closed_form (fun _ => (0 : ℚ)) id
      ⟨[0, 1], [0, 1], 1, 1, 1, 1, some 2, some 1, none⟩ 1).2 (by decide)⟩

/-- C6, confirmed: a bunch target of exactly zero -- for each of the
three target kinds (length, emittance, height) -- is special-cased in
`_set_bunch`: the outline is the degenerate point contour
`[[0, 0], [0, 0]]` with all time and energy coordinates zero, the
minimiser oracle is never consulted (the result is the same for every
oracle), and the three recomputed bunch values are all zero. -/
theorem C6_zero_targets (sq spline : ℚ → ℚ) (oracle : MinOracle)
    (c : OutlineCtx) :
    set_bunch_outline sq spline oracle c (some (some 0)) none none = .ok zeroOutline
    ∧ set_bunch_outline sq spline oracle c none (some (some 0)) none = .ok zeroOutline
    ∧ set_bunch_outline sq spline oracle c none none (some (some 0)) = .ok zeroOutline
    ∧ set_bunch sq spline oracle c (some (some 0)) none none
        = .ok ⟨some 0, some 0, some 0⟩
    ∧ set_bunch sq spline oracle c none (some (some 0)) none
        = .ok ⟨some 0, some 0, some 0⟩
    ∧ set_bunch sq spline oracle c none none (some (some 0))
        = .ok ⟨some 0, some 0, some 0⟩ := by
  have hz : bunchValsOfOutline zeroOutline = ⟨some 0, some 0, some 0⟩ := by
    have ha : npMaxO ([some 0, some 0] : List NpQ) = some 0 := by
      show nmax2 (some 0) (some 0) = some 0
      norm_num [nmax2]
    have hb : npMinO ([some 0, some 0] : List NpQ) = some 0 := by
      show nmin2 (some 0) (some 0) = some 0
      norm_num [nmin2]
    have ht : ntrapz ([some 0, some 0] : List NpQ) [some 0, some 0] = some 0 := by
      show nadd (some 0) (nmul (ndiv (nsub (some 0) (some 0)) (some 2))
        (nadd (some 0) (some 0))) = some 0
      norm_num [nadd, nmul, ndiv, nsub]
    show (⟨nsub (npMaxO [some 0, some 0]) (npMinO [some 0, some 0]),
        npMaxO [some 0, some 0],
        ntrapz [some 0, some 0] [some 0, some 0]⟩ : BunchVals) = _
    rw [ha, hb, ht]
    norm_num [nsub]
  have h1 : set_bunch_outline sq spline oracle c (some (some 0)) none none
      = .ok zeroOutline := rfl
  have h2 : set_bunch_outline sq spline oracle c none (some (some 0)) none
      = .ok zeroOutline := rfl
  have h3 : set_bunch_outline sq spline oracle c none none (some (some 0))
      = .ok zeroOutline := rfl
  refine ⟨h1, h2, h3, ?_, ?_, ?_⟩
  · show (set_bunch_outline sq spline oracle c (some (some 0)) none none).map
        bunchValsOfOutline = _
    rw [h1]
    simp [Except.map, hz]
  · show (set_bunch_outline sq spline oracle c none (some (some 0)) none).map
        bunchValsOfOutline = _
    rw [h2]
    simp [Except.map, hz]
  · show (set_bunch_outline sq spline oracle c none none (some (some 0))).map
        bunchValsOfOutline = _
    rw [h3]
    simp [Except.map, hz]

/-- C7, confirmed: the geometry stored at construction satisfies exactly
the claimed identities: the separatrix is the forward time sweep
concatenated with the reversed sweep, its energy coordinate is
`+upper ++ -(reverse upper)` for `upper = sqrt(hamil)`, and
`half_height = np.max(separatrix[1])`,
`area = 2 * np.trapz(upper, time)`, `length = time[-1] - time[0]`,
`center = np.mean(time)`. -/
theorem C7_separatrix_geometry (sq : ℚ → ℚ) (orderedT orderedW : List (List ℚ))
    (beta energy eta : ℚ) :
    ∃ g, (mkBucket sq orderedT orderedW beta energy eta).prim.geom = some g
      ∧ g.upper_energy_bound
          = (potential_to_hamiltonian ((orderedW.headD []).map some)
              beta energy eta).map (nsqrt sq)
      ∧ g.sepTime = (orderedT.headD []) ++ (orderedT.headD []).reverse
      ∧ g.sepEnergy = g.upper_energy_bound ++ (g.upper_energy_bound.reverse.map nneg)
      ∧ g.half_height = npMaxO g.sepEnergy
      ∧ g.area = nmul (some 2) (ntrapz g.upper_energy_bound
          ((orderedT.headD []).map some))
      ∧ g.length = listLast (orderedT.headD []) - listFirst (orderedT.headD [])
      ∧ g.center = (orderedT.headD []).sum / ((orderedT.headD []).length : ℚ) :=
  ⟨mkGeometry sq (orderedT.headD []) (orderedW.headD []) beta energy eta,
    rfl, rfl, rfl, rfl, rfl, rfl, rfl, rfl⟩

/-- C8, confirmed: `_set_bunch` raises `InputError` unless exactly one of
the three bunch targets is supplied, and the successful path recomputes
all three stored bunch values from the single resulting outline
(`bunch_length = max - min` of the outline times,
`bunch_height = max` of the outline energies,
`bunch_emittance = np.trapz` over the outline); the three property
setters each route through `_set_bunch`, so the values are never
independently settable. -/
theorem C8_set_bunch_exclusive (sq spline : ℚ → ℚ) (oracle : MinOracle)
    (c : OutlineCtx) (bl be bh : Option NpQ) (v : NpQ) :
    (numProvided bl be bh ≠ 1 →
       set_bunch sq spline oracle c bl be bh = .error .inputError)
    ∧ set_bunch sq spline oracle c bl be bh
        = (set_bunch_outline sq spline oracle c bl be bh).map bunchValsOfOutline
    ∧ bunch_length_set sq spline oracle c v
        = set_bunch sq spline oracle c (some v) none none
    ∧ bunch_height_set sq spline oracle c v
        = set_bunch sq spline oracle c none none (some v)
    ∧ bunch_emittance_set sq spline oracle c v
        = set_bunch sq spline oracle c none (some v) none := by
  refine ⟨?_, rfl, rfl, rfl, rfl⟩
  intro h
  simp [set_bunch, set_bunch_outline, h, Except.map]

/-- Closed witness for C8: supplying no target at all raises the input
error. -/
theorem C8_witness :
    set_bunch (fun _ => (0 : ℚ)) id (fun _ _ => .ok 0)
      ⟨[0, 1], [0, 1], 1, 1, 1, 1, some 1, some 1, none⟩ none none none
      = .error .inputError :=
  (C8_set_bunch_exclusive (fun _ => (0 : ℚ)) id (fun _ _ => .ok 0)
      ⟨[0, 1], [0, 1], 1, 1, 1, 1, some 1, some 1, none⟩ none none none
      (some 0)).1 (by decide)

/-- C9, confirmed: in the batch aggregation, a requested bunch emittance
strictly exceeding a bucket's (non-negative, non-NaN) area makes
`bunch_emittance = request` raise `BunchSizeError`; without the
`over_fill` policy the error aborts the whole batch, while with
`over_fill` enabled the step issues the warning and substitutes the
bucket's full area as the emittance target instead of aborting. -/
theorem C9_overfill_policy (sq spline : ℚ → ℚ) (oracle : MinOracle)
    (c : OutlineCtx) (rest : List (OutlineCtx × NpQ)) (a e : ℚ)
    (harea : c.area = some a) (ha0 : 0 ≤ a) (hae : a < e) :
    bucket_parameters sq spline oracle true false ((c, some e) :: rest)
        = .error .bunchSizeError
    ∧ update_bucket_emittance sq spline oracle true c (some e)
        = (set_bunch sq spline oracle c none (some c.area) none).map
            (fun v => (v, true)) := by
  have hne0 : nEqZero (some e) = false := by
    simp [nEqZero]
    exact ne_of_gt (ha0.trans_lt hae)
  have hguard : npGt (some e) c.area = true := by
    rw [harea]
    simp [npGt]
    exact hae
  have hnp : numProvided none (some (some e)) none = 1 := rfl
  have hsb : set_bunch sq spline oracle c none (some (some e)) none
      = .error .bunchSizeError := by
    simp [set_bunch, set_bunch_outline, hnp, hne0, outline_from_emittance,
      hguard, Except.map]
  constructor
  · simp [bucket_parameters, update_bucket_emittance, hsb]
  · simp [update_bucket_emittance, hsb]

/-- Closed witness for C9: a batch with one bucket of area 1 and a
requested emittance of 2 aborts with `BunchSizeError` when `over_fill`
is off. -/
theorem C9_witness :
    bucket_parameters (fun _ => (0 : ℚ)) id (fun _ _ => .ok 0) true false
      [(⟨[0, 1], [0, 1], 1, 1, 1, 1, some 1, some 1, none⟩, some 2)]
      = .error .bunchSizeError :=
  (C9_overfill_policy (fun _ => (0 : ℚ)) id (fun _ _ => .ok 0)
      ⟨[0, 1], [0, 1], 1, 1, 1, 1, some 1, some 1, none⟩ [] 1 2
      rfl (by norm_num) (by norm_num)).1

end Blond
